import Mathlib

/-!
Verification of the Cactus Kev poker hand evaluator (suffecool/pokerlib).

Cards are bit-packed machine integers, modelled as `Nat` (all values fit in
32 bits; arithmetic that can wrap in C is taken mod `2^32` explicitly).

The lookup tables `primes`, `flushes`, `unique5`, `hash_adjust`,
`hash_values` and `perm7` live in the generated header `arrays.h`, which is
not part of the source tree; functions that consume them are parametrised
over the tables, and where a claim needs concrete table contents they are
modelled from the specification.
-/

namespace Pokerlib

/-- `CLUB` suit bit, from poker.h. -/
def CLUB : Nat := 0x8000

/-- `DIAMOND` suit bit, from poker.h. -/
def DIAMOND : Nat := 0x4000

/-- `HEART` suit bit, from poker.h. -/
def HEART : Nat := 0x2000

/-- `SPADE` suit bit, from poker.h. -/
def SPADE : Nat := 0x1000

/-- Modelled from the spec: the `primes` table of arrays.h (not in src/).
"a unique prime associated with the rank (2→2, 3→3, 4→5, 5→7, …, Ace→41)":
the 13 consecutive primes from 2 to 41, indexed by rank − 2. -/
def primes : List Nat := [2, 3, 5, 7, 11, 13, 17, 19, 23, 29, 31, 37, 41]

/-- `init_deck` from pokerlib.c: deck[13*i + j] = primes[j] | ((2+j) << 8)
| suit_i | (1 << (16+j)), where suit_i starts at CLUB = 0x8000 and is
shifted right once per outer iteration (club, diamond, heart, spade). -/
def init_deck : List Nat :=
  (List.range 4).flatMap fun i =>
    (List.range 13).map fun j =>
      (primes.getD j 0) ||| ((2 + j) <<< 8) ||| (CLUB >>> i) ||| (1 <<< (16 + j))

/-- `RANK` macro from poker.h: `(x >> 8) & 0xF`. -/
def RANK (x : Nat) : Nat := (x >>> 8) &&& 0xF

/-- `hand_rank` from pokerlib.c: maps an equivalence class value in 1..7462
to one of the 9 categories, encoded 1 = STRAIGHT_FLUSH … 9 = HIGH_CARD as
in poker.h. The conditions are evaluated top to bottom. -/
def hand_rank (val : Nat) : Nat :=
  if val > 6185 then 9        -- HIGH_CARD
  else if val > 3325 then 8   -- ONE_PAIR
  else if val > 2467 then 7   -- TWO_PAIR
  else if val > 1609 then 6   -- THREE_OF_A_KIND
  else if val > 1599 then 5   -- STRAIGHT
  else if val > 322 then 4    -- FLUSH
  else if val > 166 then 3    -- FULL_HOUSE
  else if val > 10 then 2     -- FOUR_OF_A_KIND
  else 1                      -- STRAIGHT_FLUSH

/-- `find_fast` from pokerlib.c, parametrised by the `hash_adjust` table
(arrays.h, not in src/).  C unsigned arithmetic wraps mod 2^32; shifts and
xors of values below 2^32 stay below 2^32, so only additions and left
shifts are reduced. -/
def find_fast (hash_adjust : Nat → Nat) (u0 : Nat) : Nat :=
  let u1 := (u0 + 0xe91aaa35) % 2 ^ 32
  let u2 := u1 ^^^ (u1 >>> 16)
  let u3 := (u2 + (u2 <<< 8) % 2 ^ 32) % 2 ^ 32
  let u4 := u3 ^^^ (u3 >>> 4)
  let b := (u4 >>> 8) &&& 0x1ff
  let a := ((u4 + (u4 <<< 2) % 2 ^ 32) % 2 ^ 32) >>> 19
  a ^^^ hash_adjust b

/-- The mixing sequence as the specification words it (§4.3 / claim C3):
add the constant, xor with a 16-bit right shift of itself, add a
left-shift-by-8 of itself, xor with a 4-bit right shift of itself; bucket
selector `(u >> 8) & 0x1ff`; second index `(5*u) >> 19`; result is the
second index xored with `hash_adjust[bucket]`.  All mod 2^32. -/
def find_fast_specform (hash_adjust : Nat → Nat) (u0 : Nat) : Nat :=
  let u1 := (u0 + 0xe91aaa35) % 2 ^ 32
  let u2 := u1 ^^^ (u1 >>> 16)
  let u3 := (u2 + u2 * 2 ^ 8) % 2 ^ 32
  let u4 := u3 ^^^ (u3 >>> 4)
  let b := (u4 >>> 8) &&& 0x1ff
  let a := (5 * u4 % 2 ^ 32) >>> 19
  a ^^^ hash_adjust b

/-- `eval_5cards` from pokerlib.c, parametrised by the four tables from
arrays.h (not in src/).  Tables are total functions on `Nat`; the C code
indexes the 8192-entry arrays `flushes` and `unique5` with
`q = (c1|c2|c3|c4|c5) >> 16`. -/
def eval_5cards (flushes unique5 hash_values hash_adjust : Nat → Nat)
    (c1 c2 c3 c4 c5 : Nat) : Nat :=
  let q := (c1 ||| c2 ||| c3 ||| c4 ||| c5) >>> 16
  if c1 &&& c2 &&& c3 &&& c4 &&& c5 &&& 0xf000 ≠ 0 then
    flushes q
  else if unique5 q ≠ 0 then
    unique5 q
  else
    hash_values (find_fast hash_adjust
      ((c1 &&& 0xff) * (c2 &&& 0xff) * (c3 &&& 0xff) * (c4 &&& 0xff) * (c5 &&& 0xff)))

/-- `eval_5hand` from pokerlib.c: reads the five cards of the hand array
and calls `eval_5cards`. -/
def eval_5hand (flushes unique5 hash_values hash_adjust : Nat → Nat)
    (hand : List Nat) : Nat :=
  eval_5cards flushes unique5 hash_values hash_adjust
    (hand.getD 0 0) (hand.getD 1 0) (hand.getD 2 0) (hand.getD 3 0) (hand.getD 4 0)

/-- Modelled from the spec: the `perm7` index table of arrays.h (not in
src/): "the fixed 21 index-combinations of 5 chosen from 7 in any
consistent canonical order" — here lexicographic. -/
def perm7 : List (List Nat) :=
  [[0, 1, 2, 3, 4], [0, 1, 2, 3, 5], [0, 1, 2, 3, 6], [0, 1, 2, 4, 5],
   [0, 1, 2, 4, 6], [0, 1, 2, 5, 6], [0, 1, 3, 4, 5], [0, 1, 3, 4, 6],
   [0, 1, 3, 5, 6], [0, 1, 4, 5, 6], [0, 2, 3, 4, 5], [0, 2, 3, 4, 6],
   [0, 2, 3, 5, 6], [0, 2, 4, 5, 6], [0, 3, 4, 5, 6], [1, 2, 3, 4, 5],
   [1, 2, 3, 4, 6], [1, 2, 3, 5, 6], [1, 2, 4, 5, 6], [1, 3, 4, 5, 6],
   [2, 3, 4, 5, 6]]

/-- `eval_7hand` from pokerlib.c: evaluates the 21 five-card subhands
selected by `perm7` and keeps the best (numerically smallest) value,
starting from 9999. -/
def eval_7hand (flushes unique5 hash_values hash_adjust : Nat → Nat)
    (hand : List Nat) : Nat :=
  perm7.foldl
    (fun best comb =>
      let q := eval_5hand flushes unique5 hash_values hash_adjust
        (comb.map fun k => hand.getD k 0)
      if q < best then q else best)
    9999

/-- `print_hand` from pokerlib.c, modelled as the emitted character
sequence: for each card, `printf("%c%c ", rank[r], suit)` with
`r = (card >> 8) & 0xF`, rank characters drawn from `"??23456789TJQKA?"`,
and the suit letter chosen by testing CLUB, DIAMOND, HEART in order,
defaulting to 's'. -/
def card_chars (c : Nat) : List Char :=
  let r := (c >>> 8) &&& 0xF
  let suit :=
    if c &&& CLUB ≠ 0 then 'c'
    else if c &&& DIAMOND ≠ 0 then 'd'
    else if c &&& HEART ≠ 0 then 'h'
    else 's'
  ["??23456789TJQKA?".toList.getD r '?', suit, ' ']

/-- The full output of `print_hand` on a hand of `n` cards. -/
def print_hand (hand : List Nat) : List Char :=
  hand.flatMap card_chars

/-- The two-character token of a card: rank symbol then suit letter. -/
def token (c : Nat) : List Char :=
  let r := (c >>> 8) &&& 0xF
  let suit :=
    if c &&& CLUB ≠ 0 then 'c'
    else if c &&& DIAMOND ≠ 0 then 'd'
    else if c &&& HEART ≠ 0 then 'h'
    else 's'
  ["??23456789TJQKA?".toList.getD r '?', suit]

/-- Space-separated concatenation of tokens, with no separator after the
last token (the format claim C8 asserts for `print_hand`). -/
def joinSpace : List (List Char) → List Char
  | [] => []
  | [t] => t
  | t :: ts => t ++ ' ' :: joinSpace ts

/-- `eval_5cards` recast on the list of its five arguments, with the
bitwise OR, bitwise AND and prime product taken as folds. -/
def eval_5list (flushes unique5 hash_values hash_adjust : Nat → Nat)
    (l : List Nat) : Nat :=
  let q := (l.foldr (· ||| ·) 0) >>> 16
  if l.foldr (· &&& ·) 0xf000 ≠ 0 then
    flushes q
  else if unique5 q ≠ 0 then
    unique5 q
  else
    hash_values (find_fast hash_adjust (l.foldr (fun c p => (c &&& 0xff) * p) 1))

/-- A card's suit field is one-hot: its four suit bits (bits 12–15) hold
exactly one of SPADE, HEART, DIAMOND, CLUB. -/
def one_hot_suit (c : Nat) : Prop :=
  c &&& 0xf000 = SPADE ∨ c &&& 0xf000 = HEART ∨
  c &&& 0xf000 = DIAMOND ∨ c &&& 0xf000 = CLUB

instance (c : Nat) : Decidable (one_hot_suit c) := by
  unfold one_hot_suit; infer_instance

/-- The 13 card ranks in descending strength order, ace high. -/
def ranks_desc : List Nat := [14, 13, 12, 11, 10, 9, 8, 7, 6, 5, 4, 3, 2]

/-- The 10 straight rank-presence masks (bit j = rank j+2 present), in
descending order of the straight's high card: ace-high AKQJT down to the
five-high wheel A5432. -/
def straight_masks : List Nat :=
  [0x1F00, 0xF80, 0x7C0, 0x3E0, 0x1F0, 0xF8, 0x7C, 0x3E, 0x1F, 0x100F]

/-- Number of set bits among the 13 rank-presence bits. -/
def popCount13 (n : Nat) : Nat := (List.range 13).countP (fun j => n.testBit j)

/-- All 13-bit masks with exactly five bits set, in descending numeric
order.  For sets of five distinct ranks, larger mask = stronger hand, so
this is descending strength order. -/
def masks5_desc : List Nat :=
  ((List.range 8192).filter (fun m => popCount13 m == 5)).reverse

/-- The five-distinct-rank masks that are not straights, in descending
strength order. -/
def flush_masks_desc : List Nat :=
  masks5_desc.filter (fun m => !(straight_masks.contains m))

/-- Modelled from the spec: the `flushes` table of arrays.h (not in
src/): indexed by the 13-bit rank-presence mask of a flush hand, it
returns the straight-flush class (1–10) for straight masks and the flush
class (323–1599) for the remaining five-rank masks, "precomputed from the
10 distinct straights-high values down through all flush combinations in
descending strength order"; all other entries are 0. -/
def flushes_table (q : Nat) : Nat :=
  if q ∈ straight_masks then 1 + straight_masks.indexOf q
  else if q ∈ flush_masks_desc then 323 + flush_masks_desc.indexOf q
  else 0

/-- Modelled from the spec: the `unique5` table of arrays.h (not in
src/): its nonzero entries cover the 10 straights (classes 1600–1609) and
the 1277 high-card rank patterns (classes 6186–7462) in descending
strength order; zero entries mark masks of hands with at least one
pair. -/
def unique5_table (q : Nat) : Nat :=
  if q ∈ straight_masks then 1600 + straight_masks.indexOf q
  else if q ∈ flush_masks_desc then 6186 + flush_masks_desc.indexOf q
  else 0

/-- Four-of-a-kind hands as (quad rank, kicker), descending strength. -/
def quads_desc : List (Nat × Nat) :=
  ranks_desc.flatMap (fun q => (ranks_desc.filter (fun k => k != q)).map (fun k => (q, k)))

/-- Full houses as (trip rank, pair rank), descending strength. -/
def fullhouse_desc : List (Nat × Nat) :=
  ranks_desc.flatMap (fun t => (ranks_desc.filter (fun p => p != t)).map (fun p => (t, p)))

/-- Three-of-a-kind hands as (trip rank, high kicker, low kicker),
descending strength. -/
def trips_desc : List (Nat × Nat × Nat) :=
  ranks_desc.flatMap (fun t =>
    (ranks_desc.filter (fun k => k != t)).flatMap (fun k1 =>
      ((ranks_desc.filter (fun k => k != t)).filter (fun k2 => k2 < k1)).map
        (fun k2 => (t, k1, k2))))

/-- Two-pair hands as (high pair, low pair, kicker), descending
strength. -/
def twopair_desc : List (Nat × Nat × Nat) :=
  ranks_desc.flatMap (fun p1 =>
    (ranks_desc.filter (fun p2 => p2 < p1)).flatMap (fun p2 =>
      (ranks_desc.filter (fun k => k != p1 && k != p2)).map (fun k => (p1, p2, k))))

/-- One-pair hands as (pair rank, kickers in descending order),
descending strength. -/
def onepair_desc : List (Nat × Nat × Nat × Nat) :=
  ranks_desc.flatMap (fun p =>
    (ranks_desc.filter (fun k => k != p)).flatMap (fun k1 =>
      ((ranks_desc.filter (fun k => k != p)).filter (fun k => k < k1)).flatMap (fun k2 =>
        ((ranks_desc.filter (fun k => k != p)).filter (fun k => k < k2)).map
          (fun k3 => (p, k1, k2, k3)))))

/-- The prime attached to a rank (2→2, …, Ace→41). -/
def prime_of_rank (r : Nat) : Nat := primes.getD (r - 2) 0

/-- Multiplicity (0–4) of the prime `p` in `n`. -/
def mult4 (n p : Nat) : Nat :=
  if p ^ 4 ∣ n then 4
  else if p ^ 3 ∣ n then 3
  else if p ^ 2 ∣ n then 2
  else if p ∣ n then 1
  else 0

/-- Modelled from the spec: the composite `hash_values[find_fast(q)]` of
arrays.h (not in src/).  The spec specifies the pair as a collision-free
perfect-hash lookup on the product of the five cards' rank primes, whose
product "uniquely identifies the rank-multiset": so the composite maps
the prime product to the equivalence class of its rank multiset — quads
11–166, full houses 167–322, trips 1610–2467, two pair 2468–3325, one
pair 3326–6185, each category in descending strength order. -/
def hash_class (n : Nat) : Nat :=
  let quads := ranks_desc.filter (fun r => mult4 n (prime_of_rank r) == 4)
  let trips := ranks_desc.filter (fun r => mult4 n (prime_of_rank r) == 3)
  let pairs := ranks_desc.filter (fun r => mult4 n (prime_of_rank r) == 2)
  let singles := ranks_desc.filter (fun r => mult4 n (prime_of_rank r) == 1)
  match quads, trips, pairs, singles with
  | [q], [], [], [k] => 11 + quads_desc.indexOf (q, k)
  | [], [t], [p], [] => 167 + fullhouse_desc.indexOf (t, p)
  | [], [t], [], [k1, k2] => 1610 + trips_desc.indexOf (t, k1, k2)
  | [], [], [p1, p2], [k] => 2468 + twopair_desc.indexOf (p1, p2, k)
  | [], [], [p], [k1, k2, k3] => 3326 + onepair_desc.indexOf (p, k1, k2, k3)
  | _, _, _, _ => 0

/-- `eval_5cards` with the spec-modelled tables: `flushes_table`,
`unique5_table`, and the composite perfect-hash lookup `hash_class`. -/
def eval_5cards_model (c1 c2 c3 c4 c5 : Nat) : Nat :=
  let q := (c1 ||| c2 ||| c3 ||| c4 ||| c5) >>> 16
  if c1 &&& c2 &&& c3 &&& c4 &&& c5 &&& 0xf000 ≠ 0 then
    flushes_table q
  else if unique5_table q ≠ 0 then
    unique5_table q
  else
    hash_class ((c1 &&& 0xff) * (c2 &&& 0xff) * (c3 &&& 0xff) * (c4 &&& 0xff) * (c5 &&& 0xff))

/-- `eval_5hand` with the spec-modelled tables. -/
def eval_5hand_model (hand : List Nat) : Nat :=
  eval_5cards_model (hand.getD 0 0) (hand.getD 1 0) (hand.getD 2 0) (hand.getD 3 0) (hand.getD 4 0)

/-- The deck as a finite set of card values. -/
def deckF : Finset Nat := init_deck.toFinset

/-- The rank profile of a hand: entry j counts the hand's cards of rank
j+2. -/
def keyProfile (s : Finset Nat) : List Nat :=
  (List.range 13).map (fun j => (s.filter (fun c => RANK c = j + 2)).card)

/-- All cards of the hand share one suit field. -/
def sameSuit (s : Finset Nat) : Prop :=
  ∀ a ∈ s, ∀ b ∈ s, a &&& 0xf000 = b &&& 0xf000

instance (s : Finset Nat) : Decidable (sameSuit s) := by
  unfold sameSuit; infer_instance

/-- Boolean flush flag of a hand. -/
def flushB (s : Finset Nat) : Bool := decide (sameSuit s)

/-- `eval_5hand_model` on an unordered hand, reading the cards in sorted
order. -/
def evalHand (s : Finset Nat) : Nat := eval_5hand_model (s.sort (· ≤ ·))

/-- The rank-presence mask of a profile: bit j set iff entry j is
nonzero. -/
def pmaskL : List Nat → Nat
  | [] => 0
  | d :: rest => (if d ≠ 0 then 1 else 0) ||| (pmaskL rest <<< 1)

/-- The prime product of a profile: the product of each rank's prime
raised to the profile entry. -/
def pprodL (m : List Nat) : Nat :=
  ∏ j in Finset.range 13, (primes.getD j 0) ^ (m.getD j 0)

/-- The class of a hand as a function of its rank profile and flush flag,
mirroring the three-way dispatch of `eval_5cards`. -/
def classify (m : List Nat) (b : Bool) : Nat :=
  if b then flushes_table (pmaskL m)
  else if unique5_table (pmaskL m) ≠ 0 then unique5_table (pmaskL m)
  else hash_class (pprodL m)

/-- All length-`k` profiles with entries at most 4 summing to `t`. -/
def genProfiles : Nat → Nat → List (List Nat)
  | 0, t => if t = 0 then [[]] else []
  | k + 1, t =>
    (List.range (min t 4 + 1)).flatMap (fun d => (genProfiles k (t - d)).map (d :: ·))

/-- All fiber keys: each realizable rank profile with both flush flags. -/
def profileKeys : List (List Nat × Bool) :=
  (genProfiles 13 5).flatMap (fun m => [(m, false), (m, true)])

/-- Number of flush hands with a given rank profile: one per suit when
the profile has no repeated rank, none otherwise. -/
def flushCount (m : List Nat) : Nat := if m.all (· ≤ 1) then 4 else 0

/-- Number of hands with a given rank profile: choose the suits of each
rank independently. -/
def suitCount (m : List Nat) : Nat := (m.map (fun d => Nat.choose 4 d)).prod

/-- Number of hands with a given rank profile and flush flag. -/
def fiberCount (m : List Nat) (b : Bool) : Nat :=
  if b then flushCount m else suitCount m - flushCount m

end Pokerlib

namespace Pokerlib

/-- C3: `find_fast` computes exactly the spec's mixing sequence over
wrapping 32-bit arithmetic — add 0xe91aaa35, xor with a 16-bit right
shift, add a left-shift-by-8 of itself, xor with a 4-bit right shift —
then the bucket selector is `(u >> 8) & 0x1ff`, the second index is
`(5*u) >> 19` (mod 2^32), and the result is the second index xored with
`hash_adjust[bucket]`. -/
theorem find_fast_eq_specform (hash_adjust : Nat → Nat) (u0 : Nat) :
    find_fast hash_adjust u0 = find_fast_specform hash_adjust u0 := by
  have e1 : ∀ x : Nat, (x + x * 2 ^ 8 % 2 ^ 32) % 2 ^ 32 = (x + x * 2 ^ 8) % 2 ^ 32 := by
    intro x; omega
  have e2 : ∀ x : Nat, (x + x * 2 ^ 2 % 2 ^ 32) % 2 ^ 32 = 5 * x % 2 ^ 32 := by
    intro x; omega
  simp only [find_fast, find_fast_specform, Nat.shiftLeft_eq, e1, e2]

/-- C4 counterexample: the claim as stated asserts
hand_rank(1599) = Straight (5) and hand_rank(1600) = Flush (4), but the
code's cascade gives hand_rank(1599) = Flush (4) and
hand_rank(1600) = Straight (5): 1599 fails `val > 1599` and falls to the
`val > 322` flush branch, while 1600 satisfies `val > 1599`. -/
theorem hand_rank_boundaries_claim_false :
    ¬(hand_rank 10 = 1 ∧ hand_rank 11 = 2 ∧ hand_rank 166 = 2 ∧
      hand_rank 167 = 3 ∧ hand_rank 1599 = 5 ∧ hand_rank 1600 = 4 ∧
      hand_rank 6185 = 8 ∧ hand_rank 6186 = 9) := by
  decide

/-- C4 amended: boundary exactness of `hand_rank` with the first satisfied
strict-lower-bound condition winning: 10 ↦ StraightFlush (1),
11 and 166 ↦ FourOfAKind (2), 167 ↦ FullHouse (3), 1599 ↦ Flush (4),
1600 ↦ Straight (5), 6185 ↦ OnePair (8), 6186 ↦ HighCard (9). -/
theorem hand_rank_boundaries :
    hand_rank 10 = 1 ∧ hand_rank 11 = 2 ∧ hand_rank 166 = 2 ∧
    hand_rank 167 = 3 ∧ hand_rank 1599 = 4 ∧ hand_rank 1600 = 5 ∧
    hand_rank 6185 = 8 ∧ hand_rank 6186 = 9 := by
  decide

/-- C10: for five cards with all bits above bit 28 clear (every valid
encoded card is below 2^29), the index `q = (c1|c2|c3|c4|c5) >> 16` is at
most 8191, so the 8192-entry lookups `flushes[q]` and `unique5[q]` in
`eval_5cards` are in bounds: `eval_5cards` is unchanged when both tables
are truncated to the indices 0..8191, i.e. the out-of-bounds case is
unreachable. -/
theorem eval_5cards_index_in_bounds (flushes unique5 hash_values hash_adjust : Nat → Nat)
    (c1 c2 c3 c4 c5 : Nat)
    (h1 : c1 < 2 ^ 29) (h2 : c2 < 2 ^ 29) (h3 : c3 < 2 ^ 29)
    (h4 : c4 < 2 ^ 29) (h5 : c5 < 2 ^ 29) :
    (c1 ||| c2 ||| c3 ||| c4 ||| c5) >>> 16 ≤ 8191 ∧
    eval_5cards flushes unique5 hash_values hash_adjust c1 c2 c3 c4 c5 =
      eval_5cards (fun q => if q ≤ 8191 then flushes q else 0)
        (fun q => if q ≤ 8191 then unique5 q else 0) hash_values hash_adjust c1 c2 c3 c4 c5 := by
  have hor : (c1 ||| c2 ||| c3 ||| c4 ||| c5) < 2 ^ 29 :=
    Nat.or_lt_two_pow (Nat.or_lt_two_pow (Nat.or_lt_two_pow
      (Nat.or_lt_two_pow h1 h2) h3) h4) h5
  have hq : (c1 ||| c2 ||| c3 ||| c4 ||| c5) >>> 16 ≤ 8191 := by
    rw [Nat.shiftRight_eq_div_pow]
    omega
  refine ⟨hq, ?_⟩
  simp only [eval_5cards, if_pos hq]

/-- Witness for C10 at the five highest club cards of the deck, all
tables the zero function. -/
theorem eval_5cards_index_in_bounds_witness :
    (0x10008E29 ||| 0x8008D1D ||| 0x4008C1F ||| 0x2008B25 ||| 0x1008A23) >>> 16 ≤ 8191 :=
  (eval_5cards_index_in_bounds (fun _ => 0) (fun _ => 0) (fun _ => 0) (fun _ => 0)
    0x10008E29 0x8008D1D 0x4008C1F 0x2008B25 0x1008A23
    (by decide) (by decide) (by decide) (by decide) (by decide)).1

/-- On the class domain, each category code of `hand_rank` is taken
exactly on an interval of class values. -/
theorem hand_rank_eq_iff (v k : Nat) (hv : 1 ≤ v) (hv' : v ≤ 7462) :
    hand_rank v = k ↔
      (1 ≤ k ∧ k ≤ 9 ∧
        [1, 11, 167, 323, 1600, 1610, 2468, 3326, 6186].getD (k - 1) 0 ≤ v ∧
        v ≤ [10, 166, 322, 1599, 1609, 2467, 3325, 6185, 7462].getD (k - 1) 0) := by
  unfold hand_rank
  split_ifs <;>
    (constructor
     · intro hk; subst hk; simp [List.getD, Option.getD]; omega
     · intro ⟨hk1, hk9, hlo, hhi⟩
       interval_cases k <;> simp_all [List.getD, Option.getD] <;> omega)

/-- The set of class values in [1,7462] mapped by `hand_rank` to category
code `k` is the interval from `lo` to `hi`. -/
theorem hand_rank_filter_eq_Icc (k lo hi : Nat) (hk1 : 1 ≤ k) (hk9 : k ≤ 9)
    (hlo : lo = [1, 11, 167, 323, 1600, 1610, 2468, 3326, 6186].getD (k - 1) 0)
    (hhi : hi = [10, 166, 322, 1599, 1609, 2467, 3325, 6185, 7462].getD (k - 1) 0) :
    (Finset.Icc 1 7462).filter (fun v => hand_rank v = k) = Finset.Icc lo hi := by
  ext v
  simp only [Finset.mem_filter, Finset.mem_Icc]
  constructor
  · intro ⟨⟨h1, h2⟩, hr⟩
    have := (hand_rank_eq_iff v k h1 h2).mp hr
    omega
  · intro ⟨h1, h2⟩
    have hv1 : 1 ≤ v := by subst hlo; interval_cases k <;> simp_all [List.getD, Option.getD] <;> omega
    have hv2 : v ≤ 7462 := by subst hhi; interval_cases k <;> simp_all [List.getD, Option.getD] <;> omega
    refine ⟨⟨hv1, hv2⟩, ?_⟩
    exact (hand_rank_eq_iff v k hv1 hv2).mpr ⟨hk1, hk9, by omega, by omega⟩

/-- C5: over the domain [1,7462], `hand_rank` partitions the class values
into the 9 categories with populations StraightFlush 10, FourOfAKind 156,
FullHouse 156, Flush 1277, Straight 10, ThreeOfAKind 858, TwoPair 858,
OnePair 2860, HighCard 1277, and the category code (1 = strongest
category … 9 = weakest) is monotonically non-decreasing in the class
value, i.e. the category's strength is non-increasing. -/
theorem hand_rank_partition :
    (((Finset.Icc 1 7462).filter (fun v => hand_rank v = 1)).card = 10 ∧
     ((Finset.Icc 1 7462).filter (fun v => hand_rank v = 2)).card = 156 ∧
     ((Finset.Icc 1 7462).filter (fun v => hand_rank v = 3)).card = 156 ∧
     ((Finset.Icc 1 7462).filter (fun v => hand_rank v = 4)).card = 1277 ∧
     ((Finset.Icc 1 7462).filter (fun v => hand_rank v = 5)).card = 10 ∧
     ((Finset.Icc 1 7462).filter (fun v => hand_rank v = 6)).card = 858 ∧
     ((Finset.Icc 1 7462).filter (fun v => hand_rank v = 7)).card = 858 ∧
     ((Finset.Icc 1 7462).filter (fun v => hand_rank v = 8)).card = 2860 ∧
     ((Finset.Icc 1 7462).filter (fun v => hand_rank v = 9)).card = 1277) ∧
    (∀ v w : Nat, 1 ≤ v → v ≤ w → w ≤ 7462 → hand_rank v ≤ hand_rank w) := by
  constructor
  · refine ⟨?_, ?_, ?_, ?_, ?_, ?_, ?_, ?_, ?_⟩ <;>
      (rw [hand_rank_filter_eq_Icc _ _ _ (by omega) (by omega) rfl rfl, Nat.card_Icc]
       simp [List.getD, Option.getD])
  · intro v w hv hvw hw
    have h1 := (hand_rank_eq_iff v (hand_rank v) hv (by omega) ).mp rfl
    have h2 := (hand_rank_eq_iff w (hand_rank w) (by omega) hw).mp rfl
    by_contra hlt
    push_neg at hlt
    obtain ⟨k1a, k1b, lo1, hi1⟩ := h1
    obtain ⟨k2a, k2b, lo2, hi2⟩ := h2
    set a := hand_rank v
    set b := hand_rank w
    interval_cases a <;> interval_cases b <;> simp_all [List.getD, Option.getD] <;> omega

/-- Witness for C5's monotonicity part at v = 100, w = 5000. -/
theorem hand_rank_partition_witness : hand_rank 100 ≤ hand_rank 5000 :=
  hand_rank_partition.2 100 5000 (by decide) (by decide) (by decide)

/-- Masking an AND-chain by 0xf000 equals the AND-chain of the masked
values. -/
theorem land_chain_mask (c1 c2 c3 c4 c5 : Nat) :
    c1 &&& c2 &&& c3 &&& c4 &&& c5 &&& 0xf000 =
      (c1 &&& 0xf000) &&& (c2 &&& 0xf000) &&& (c3 &&& 0xf000) &&&
      (c4 &&& 0xf000) &&& (c5 &&& 0xf000) := by
  apply Nat.eq_of_testBit_eq
  intro i
  simp only [Nat.testBit_and]
  by_cases h1 : c1.testBit i <;> by_cases h2 : c2.testBit i <;>
    by_cases h3 : c3.testBit i <;> by_cases h4 : c4.testBit i <;>
    by_cases h5 : c5.testBit i <;>
    simp [h1, h2, h3, h4, h5]

/-- For five one-hot suit fields, the AND-chain is nonzero exactly when
all five fields agree. -/
theorem suit_and_characterization_aux :
    ∀ s1 ∈ [SPADE, HEART, DIAMOND, CLUB], ∀ s2 ∈ [SPADE, HEART, DIAMOND, CLUB],
    ∀ s3 ∈ [SPADE, HEART, DIAMOND, CLUB], ∀ s4 ∈ [SPADE, HEART, DIAMOND, CLUB],
    ∀ s5 ∈ [SPADE, HEART, DIAMOND, CLUB],
      (s1 &&& s2 &&& s3 &&& s4 &&& s5 ≠ 0 ↔
        (s1 = s2 ∧ s2 = s3 ∧ s3 = s4 ∧ s4 = s5)) := by
  decide

/-- C2: `eval_5cards` follows the three-way dispatch in order.  With
`q = (c1|c2|c3|c4|c5) >> 16`: it returns `flushes[q]` exactly when the
AND of the five cards' suit fields is nonzero, which for one-hot suit
encodings holds iff all five cards carry the same suit field; otherwise
it returns `unique5[q]` when that entry is nonzero; otherwise it returns
the perfect-hash lookup on the product of the five cards' low bytes.  The
three branches are mutually exclusive by the if/else structure. -/
theorem eval_5cards_dispatch (flushes unique5 hash_values hash_adjust : Nat → Nat)
    (c1 c2 c3 c4 c5 : Nat)
    (h1 : one_hot_suit c1) (h2 : one_hot_suit c2) (h3 : one_hot_suit c3)
    (h4 : one_hot_suit c4) (h5 : one_hot_suit c5) :
    (c1 &&& c2 &&& c3 &&& c4 &&& c5 &&& 0xf000 ≠ 0 ↔
      (c1 &&& 0xf000 = c2 &&& 0xf000 ∧ c2 &&& 0xf000 = c3 &&& 0xf000 ∧
       c3 &&& 0xf000 = c4 &&& 0xf000 ∧ c4 &&& 0xf000 = c5 &&& 0xf000)) ∧
    (c1 &&& c2 &&& c3 &&& c4 &&& c5 &&& 0xf000 ≠ 0 →
      eval_5cards flushes unique5 hash_values hash_adjust c1 c2 c3 c4 c5 =
        flushes ((c1 ||| c2 ||| c3 ||| c4 ||| c5) >>> 16)) ∧
    (c1 &&& c2 &&& c3 &&& c4 &&& c5 &&& 0xf000 = 0 →
      unique5 ((c1 ||| c2 ||| c3 ||| c4 ||| c5) >>> 16) ≠ 0 →
      eval_5cards flushes unique5 hash_values hash_adjust c1 c2 c3 c4 c5 =
        unique5 ((c1 ||| c2 ||| c3 ||| c4 ||| c5) >>> 16)) ∧
    (c1 &&& c2 &&& c3 &&& c4 &&& c5 &&& 0xf000 = 0 →
      unique5 ((c1 ||| c2 ||| c3 ||| c4 ||| c5) >>> 16) = 0 →
      eval_5cards flushes unique5 hash_values hash_adjust c1 c2 c3 c4 c5 =
        hash_values (find_fast hash_adjust
          ((c1 &&& 0xff) * (c2 &&& 0xff) * (c3 &&& 0xff) * (c4 &&& 0xff) * (c5 &&& 0xff)))) := by
  have hs1 : c1 &&& 0xf000 ∈ [SPADE, HEART, DIAMOND, CLUB] := by
    rcases h1 with h | h | h | h <;> simp [h]
  have hs2 : c2 &&& 0xf000 ∈ [SPADE, HEART, DIAMOND, CLUB] := by
    rcases h2 with h | h | h | h <;> simp [h]
  have hs3 : c3 &&& 0xf000 ∈ [SPADE, HEART, DIAMOND, CLUB] := by
    rcases h3 with h | h | h | h <;> simp [h]
  have hs4 : c4 &&& 0xf000 ∈ [SPADE, HEART, DIAMOND, CLUB] := by
    rcases h4 with h | h | h | h <;> simp [h]
  have hs5 : c5 &&& 0xf000 ∈ [SPADE, HEART, DIAMOND, CLUB] := by
    rcases h5 with h | h | h | h <;> simp [h]
  refine ⟨?_, ?_, ?_, ?_⟩
  · rw [land_chain_mask]
    exact suit_and_characterization_aux _ hs1 _ hs2 _ hs3 _ hs4 _ hs5
  · intro hflush
    simp only [eval_5cards, if_pos hflush]
  · intro hnoflush huniq
    simp only [eval_5cards]
    rw [if_neg (by simpa using hnoflush), if_pos huniq]
  · intro hnoflush huniq
    simp only [eval_5cards]
    rw [if_neg (by simpa using hnoflush), if_neg (by simpa using huniq)]

/-- Witness for C2 at five concrete club cards of the deck, with all
tables instantiated to the zero function. -/
theorem eval_5cards_dispatch_witness :
    (0x10008E29 : Nat) &&& 0x8008D1D &&& 0x4008C1F &&& 0x2008B25 &&& 0x1008A23 &&& 0xf000 ≠ 0 ↔
      ((0x10008E29 : Nat) &&& 0xf000 = 0x8008D1D &&& 0xf000 ∧
       (0x8008D1D : Nat) &&& 0xf000 = 0x4008C1F &&& 0xf000 ∧
       (0x4008C1F : Nat) &&& 0xf000 = 0x2008B25 &&& 0xf000 ∧
       (0x2008B25 : Nat) &&& 0xf000 = 0x1008A23 &&& 0xf000) :=
  (eval_5cards_dispatch (fun _ => 0) (fun _ => 0) (fun _ => 0) (fun _ => 0)
    0x10008E29 0x8008D1D 0x4008C1F 0x2008B25 0x1008A23
    (by decide) (by decide) (by decide) (by decide) (by decide)).1

/-- `eval_5cards` agrees with its list recast on the five-element list of
its arguments. -/
theorem eval_5cards_eq_eval_5list (flushes unique5 hash_values hash_adjust : Nat → Nat)
    (c1 c2 c3 c4 c5 : Nat) :
    eval_5cards flushes unique5 hash_values hash_adjust c1 c2 c3 c4 c5 =
      eval_5list flushes unique5 hash_values hash_adjust [c1, c2, c3, c4, c5] := by
  have hor : c1 ||| c2 ||| c3 ||| c4 ||| c5 = c1 ||| (c2 ||| (c3 ||| (c4 ||| (c5 ||| 0)))) := by
    simp [Nat.or_assoc]
  have hand : c1 &&& c2 &&& c3 &&& c4 &&& c5 &&& 0xf000 =
      c1 &&& (c2 &&& (c3 &&& (c4 &&& (c5 &&& 0xf000)))) := by
    simp [Nat.and_assoc]
  have hprod : (c1 &&& 0xff) * (c2 &&& 0xff) * (c3 &&& 0xff) * (c4 &&& 0xff) * (c5 &&& 0xff) =
      (c1 &&& 0xff) * ((c2 &&& 0xff) * ((c3 &&& 0xff) * ((c4 &&& 0xff) * ((c5 &&& 0xff) * 1)))) := by
    ring
  simp only [eval_5cards, eval_5list, List.foldr, hor, hand, hprod]

/-- The list recast of `eval_5cards` is invariant under permutation of
the card list, because bitwise OR, bitwise AND and multiplication are
commutative and associative. -/
theorem eval_5list_perm (flushes unique5 hash_values hash_adjust : Nat → Nat)
    (l1 l2 : List Nat) (h : l1.Perm l2) :
    eval_5list flushes unique5 hash_values hash_adjust l1 =
      eval_5list flushes unique5 hash_values hash_adjust l2 := by
  haveI : LeftCommutative (fun (a b : Nat) => a ||| b) := ⟨fun a b c => by ac_rfl⟩
  haveI : LeftCommutative (fun (a b : Nat) => a &&& b) := ⟨fun a b c => by ac_rfl⟩
  haveI : LeftCommutative (fun (c p : Nat) => (c &&& 0xff) * p) := ⟨fun a b c => by ring⟩
  simp only [eval_5list, h.foldr_eq (f := fun (a b : Nat) => a ||| b) 0,
    h.foldr_eq (f := fun (a b : Nat) => a &&& b) 0xf000,
    h.foldr_eq (f := fun (c p : Nat) => (c &&& 0xff) * p) 1]

/-- C9: `eval_5cards` — and hence `eval_5hand` — is invariant under every
permutation of its five card arguments, because bitwise OR, bitwise AND
and integer multiplication are commutative and associative. -/
theorem eval_5cards_perm_invariant (flushes unique5 hash_values hash_adjust : Nat → Nat)
    (c1 c2 c3 c4 c5 d1 d2 d3 d4 d5 : Nat)
    (h : List.Perm [c1, c2, c3, c4, c5] [d1, d2, d3, d4, d5]) :
    eval_5cards flushes unique5 hash_values hash_adjust c1 c2 c3 c4 c5 =
      eval_5cards flushes unique5 hash_values hash_adjust d1 d2 d3 d4 d5 ∧
    eval_5hand flushes unique5 hash_values hash_adjust [c1, c2, c3, c4, c5] =
      eval_5hand flushes unique5 hash_values hash_adjust [d1, d2, d3, d4, d5] := by
  have key : eval_5cards flushes unique5 hash_values hash_adjust c1 c2 c3 c4 c5 =
      eval_5cards flushes unique5 hash_values hash_adjust d1 d2 d3 d4 d5 := by
    rw [eval_5cards_eq_eval_5list, eval_5cards_eq_eval_5list]
    exact eval_5list_perm flushes unique5 hash_values hash_adjust _ _ h
  exact ⟨key, key⟩

/-- Witness for C9: swapping the first two of five concrete cards. -/
theorem eval_5cards_perm_invariant_witness :
    eval_5cards (fun _ => 0) (fun _ => 0) (fun _ => 0) (fun _ => 0) 1 2 3 4 5 =
      eval_5cards (fun _ => 0) (fun _ => 0) (fun _ => 0) (fun _ => 0) 2 1 3 4 5 :=
  (eval_5cards_perm_invariant (fun _ => 0) (fun _ => 0) (fun _ => 0) (fun _ => 0)
    1 2 3 4 5 2 1 3 4 5 (List.Perm.swap 2 1 [3, 4, 5])).1

/-- The running-minimum fold of `eval_7hand`: its result is the initial
value or a list element, and it is a lower bound for the initial value
and every list element. -/
theorem foldl_best_spec (l : List Nat) (init : Nat) :
    (l.foldl (fun best q => if q < best then q else best) init = init ∨
      l.foldl (fun best q => if q < best then q else best) init ∈ l) ∧
    l.foldl (fun best q => if q < best then q else best) init ≤ init ∧
    (∀ v ∈ l, l.foldl (fun best q => if q < best then q else best) init ≤ v) := by
  induction l generalizing init with
  | nil => exact ⟨Or.inl rfl, Nat.le_refl _, by simp⟩
  | cons a t ih =>
    obtain ⟨hmem, hle, hall⟩ := ih (if a < init then a else init)
    simp only [List.foldl_cons]
    refine ⟨?_, ?_, ?_⟩
    · rcases hmem with h | h
      · rw [h]
        split_ifs with ha
        · exact Or.inr (List.mem_cons_self a t)
        · exact Or.inl rfl
      · exact Or.inr (List.mem_cons_of_mem a h)
    · refine Nat.le_trans hle ?_
      split_ifs <;> omega
    · intro v hv
      rcases List.mem_cons.mp hv with h | h
      · subst h
        refine Nat.le_trans hle ?_
        split_ifs <;> omega
      · exact hall v h

/-- C6: `eval_7hand` returns the minimum of `eval_5hand` over the 21
five-card subsets selected by `perm7`: the result is one of the 21
values, is a lower bound for all of them, and — because every value is at
most 7462 — the 9999 initial value never survives. -/
theorem eval_7hand_min (flushes unique5 hash_values hash_adjust : Nat → Nat)
    (hand : List Nat) (hlen : hand.length = 7)
    (hb : ∀ comb ∈ perm7,
      eval_5hand flushes unique5 hash_values hash_adjust (comb.map fun k => hand.getD k 0) ≤ 7462) :
    eval_7hand flushes unique5 hash_values hash_adjust hand ∈
      perm7.map (fun comb =>
        eval_5hand flushes unique5 hash_values hash_adjust (comb.map fun k => hand.getD k 0)) ∧
    (∀ v ∈ perm7.map (fun comb =>
        eval_5hand flushes unique5 hash_values hash_adjust (comb.map fun k => hand.getD k 0)),
      eval_7hand flushes unique5 hash_values hash_adjust hand ≤ v) ∧
    eval_7hand flushes unique5 hash_values hash_adjust hand ≤ 7462 := by
  have hfold : eval_7hand flushes unique5 hash_values hash_adjust hand =
      (perm7.map (fun comb =>
        eval_5hand flushes unique5 hash_values hash_adjust (comb.map fun k => hand.getD k 0))).foldl
        (fun best q => if q < best then q else best) 9999 := by
    rw [List.foldl_map]
    rfl
  obtain ⟨hmem, _, hall⟩ := foldl_best_spec
    (perm7.map (fun comb =>
      eval_5hand flushes unique5 hash_values hash_adjust (comb.map fun k => hand.getD k 0))) 9999
  rw [hfold]
  have hhd : eval_5hand flushes unique5 hash_values hash_adjust
      ([0, 1, 2, 3, 4].map fun k => hand.getD k 0) ≤ 7462 :=
    hb [0, 1, 2, 3, 4] (by simp [perm7])
  have hhd_mem : eval_5hand flushes unique5 hash_values hash_adjust
      ([0, 1, 2, 3, 4].map fun k => hand.getD k 0) ∈
      perm7.map (fun comb =>
        eval_5hand flushes unique5 hash_values hash_adjust (comb.map fun k => hand.getD k 0)) := by
    refine List.mem_map.mpr ⟨[0, 1, 2, 3, 4], by simp [perm7], rfl⟩
  have hmem' : (perm7.map (fun comb =>
      eval_5hand flushes unique5 hash_values hash_adjust (comb.map fun k => hand.getD k 0))).foldl
        (fun best q => if q < best then q else best) 9999 ∈
      perm7.map (fun comb =>
        eval_5hand flushes unique5 hash_values hash_adjust (comb.map fun k => hand.getD k 0)) := by
    rcases hmem with h | h
    · exfalso
      have := hall _ hhd_mem
      omega
    · exact h
  refine ⟨hmem', hall, ?_⟩
  obtain ⟨comb, hcomb, heq⟩ := List.mem_map.mp hmem'
  rw [← heq]
  exact hb comb hcomb

/-- Witness for C6 on the hand [0,…,6] with all tables the constant
function 1. -/
theorem eval_7hand_min_witness :
    eval_7hand (fun _ => 1) (fun _ => 1) (fun _ => 1) (fun _ => 1) [0, 1, 2, 3, 4, 5, 6] ≤ 7462 :=
  (eval_7hand_min (fun _ => 1) (fun _ => 1) (fun _ => 1) (fun _ => 1)
    [0, 1, 2, 3, 4, 5, 6] (by decide) (by decide)).2.2

/-- `card_chars` is the card's two-character token followed by a space. -/
theorem card_chars_eq_token (c : Nat) : card_chars c = token c ++ [' '] := rfl

/-- Every deck card's token is a rank symbol from "23456789TJQKA"
followed by a suit letter from c, d, h, s. -/
theorem token_valid :
    ∀ c ∈ init_deck, (token c).length = 2 ∧
      (token c).getD 0 '?' ∈ "23456789TJQKA".toList ∧
      (token c).getD 1 '?' ∈ ['c', 'd', 'h', 's'] := by
  decide

/-- No deck card's emitted characters contain a newline. -/
theorem card_chars_no_newline : ∀ c ∈ init_deck, '\n' ∉ card_chars c := by
  decide

/-- C8 counterexample: on the one-card hand holding the Ace of clubs
(0x10008E29), `print_hand` emits "Ac " — a trailing space after the last
token — so its output is not the space-separated concatenation of the
two-character tokens that the claim asserts. -/
theorem print_hand_claim_false :
    print_hand [0x10008E29] ≠ joinSpace ([0x10008E29].map token) := by
  decide

/-- C8 amended: `print_hand` emits each card as a two-character token —
rank symbol from "23456789TJQKA" then suit letter from c, d, h, s — with
every token, the last included, followed by one space (so the tokens are
space-separated with one trailing space), and no newline is emitted. -/
theorem print_hand_format (hand : List Nat) (hne : hand ≠ [])
    (hv : ∀ c ∈ hand, c ∈ init_deck) :
    print_hand hand = joinSpace (hand.map token) ++ [' '] ∧
    (∀ c ∈ hand, (token c).length = 2 ∧
      (token c).getD 0 '?' ∈ "23456789TJQKA".toList ∧
      (token c).getD 1 '?' ∈ ['c', 'd', 'h', 's']) ∧
    '\n' ∉ print_hand hand := by
  refine ⟨?_, fun c hc => token_valid c (hv c hc), ?_⟩
  · clear hv
    induction hand with
    | nil => exact absurd rfl hne
    | cons c rest ih =>
      cases rest with
      | nil => simp [print_hand, joinSpace, card_chars_eq_token]
      | cons r rs =>
        have hrest := ih (by simp)
        simp only [print_hand, List.flatMap_cons, List.map_cons] at hrest ⊢
        rw [hrest, card_chars_eq_token]
        simp [joinSpace, List.append_assoc]
  · simp only [print_hand, List.mem_flatMap, not_exists, not_and]
    intro c hc
    exact card_chars_no_newline c (hv c hc)

/-- Witness for C8's amended statement on the one-card hand holding the
Ace of clubs. -/
theorem print_hand_format_witness :
    print_hand [0x10008E29] = joinSpace ([0x10008E29].map token) ++ [' '] :=
  (print_hand_format [0x10008E29] (by decide) (by decide)).1

/-- C7: `init_deck` yields 52 pairwise-distinct cards, one for each of
the 13 ranks (2..14) × 4 suits, each encoded with the rank's prime in the
low byte, the numeric rank in the nibble at bits 8–11, a one-hot suit bit
among bits 12–15, and the one-hot rank-presence bit at bit 16+(rank−2). -/
theorem init_deck_spec :
    init_deck.length = 52 ∧ init_deck.Nodup ∧
    (∀ c ∈ init_deck,
      c &&& 0xff = primes.getD (RANK c - 2) 0 ∧
      2 ≤ RANK c ∧ RANK c ≤ 14 ∧
      (c >>> 12) &&& 0xF ∈ [1, 2, 4, 8] ∧
      c >>> 16 = 1 <<< (RANK c - 2)) ∧
    (∀ r ∈ List.range' 2 13, ∀ s ∈ [SPADE, HEART, DIAMOND, CLUB],
      init_deck.countP (fun c => RANK c == r && (c &&& 0xf000 == s)) = 1) := by
  decide

end Pokerlib
